import Mathlib

/-!
Shallow embedding of the analytics core of `dashboard/dashboard.py`
(Submission_Dicoding).

The dashboard loads a pre-joined order-level table, filters it to a date
window chosen in the sidebar, and computes:
  * window-level KPI scalars (`total_revenue`, `total_orders`,
    `total_customers`),
  * a per-calendar-month aggregate (`monthly`) with distinct-order counts
    and payment sums, and
  * an RFM table (`rfm`) with quartile scores obtained through `pd.qcut`
    and a rule-based `segment` classification.

Rows are embedded as records over exact types: timestamps as whole seconds
(`ℤ`), payment values as `ℚ`, identifiers as `ℕ`.  `pd.qcut` is embedded
faithfully: quantile bin edges are computed by linear interpolation at
positions `q * (n - 1)` over the sorted values, duplicate bin edges make
the cut fail (pandas raises `ValueError` for non-unique edges), and each
value is assigned the left-open interval it falls in, with the lowest
interval closed on the left.  `Series.rank(method=first)` is embedded as
the count-based rank with ties broken by original position.
-/

set_option allowUnsafeReducibility true in
attribute [semireducible] Rat.add Rat.mul Rat.sub Rat.inv

namespace Dashboard

/-- Maximum of a list of integers; `0` for the empty list (the code only
takes maxima of nonempty lists, the default is never used there). -/
def listMax : List ℤ → ℤ
  | [] => 0
  | [a] => a
  | a :: b :: rest => max a (listMax (b :: rest))

/-- Calendar year-month of an instant given in whole seconds since the Unix
epoch, encoded injectively and monotonically as `year * 12 + (month - 1)`.
This embeds `Series.dt.to_period("M")` (proleptic Gregorian calendar),
using the standard civil-from-days conversion. -/
def yearMonthOf (sec : ℤ) : ℤ :=
  let z : ℤ := sec.fdiv 86400 + 719468
  let era : ℤ := z.fdiv 146097
  let doe : ℤ := z - era * 146097
  let yoe : ℤ := (doe - doe / 1460 + doe / 36524 - doe / 146096) / 365
  let doy : ℤ := doe - (365 * yoe + yoe / 4 - yoe / 100)
  let mp : ℤ := (5 * doy + 2) / 153
  let m : ℤ := if mp < 10 then mp + 3 else mp - 9
  let y : ℤ := yoe + era * 400 + (if m ≤ 2 then 1 else 0)
  y * 12 + (m - 1)

/-- One row of the pre-joined input table `main_data.csv`: an order
identifier, a customer identifier (`customer_unique_id`), the purchase
timestamp (whole seconds since the epoch) and one payment line item. -/
structure OrderRow where
  order_id : ℕ
  customer_unique_id : ℕ
  order_purchase_timestamp : ℤ
  payment_value : ℚ
deriving DecidableEq, Repr

/-- The sidebar date window: two instants, both inclusive. -/
structure DateWindow where
  start_date : ℤ
  end_date : ℤ
deriving DecidableEq, Repr

/-- Source `filtered_df`: rows whose purchase timestamp is at least
`start_date` and at most `end_date` (both comparisons inclusive). -/
def filtered_df (df : List OrderRow) (w : DateWindow) : List OrderRow :=
  df.filter fun r =>
    decide (w.start_date ≤ r.order_purchase_timestamp) &&
    decide (r.order_purchase_timestamp ≤ w.end_date)

/-- Source: the sum of the payment_value column of the filtered rows. -/
def total_revenue (df : List OrderRow) (w : DateWindow) : ℚ :=
  ((filtered_df df w).map (·.payment_value)).sum

/-- Source: the nunique count of the order_id column of the filtered rows. -/
def total_orders (df : List OrderRow) (w : DateWindow) : ℕ :=
  ((filtered_df df w).map (·.order_id)).dedup.length

/-- Source: the nunique count of the customer_unique_id column of the
filtered rows. -/
def total_customers (df : List OrderRow) (w : DateWindow) : ℕ :=
  ((filtered_df df w).map (·.customer_unique_id)).dedup.length

/-- Source `order_month`: the calendar year-month of a row, the grouping
key of the monthly groupby. -/
def order_month (r : OrderRow) : ℤ :=
  yearMonthOf r.order_purchase_timestamp

/-- One output row of the monthly aggregation: the month key, the
distinct-order count (`nunique`) and the payment sum. -/
structure MonthlyBucket where
  order_month : ℤ
  order_id_nunique : ℕ
  payment_value_sum : ℚ
deriving DecidableEq, Repr

/-- Source `monthly`: group the filtered rows by order_month and
aggregate order_id with nunique and payment_value with sum.  There is
one bucket per distinct month key
present in the filtered rows, keys sorted ascending (pandas `groupby`
sorts its keys), each holding the distinct-order count and payment sum of
the rows of that month. -/
def monthly (df : List OrderRow) (w : DateWindow) : List MonthlyBucket :=
  let fd := filtered_df df w
  (((fd.map order_month).dedup).insertionSort (· ≤ ·)).map fun k =>
    let rows := fd.filter fun r => decide (order_month r = k)
    { order_month := k,
      order_id_nunique := (rows.map (·.order_id)).dedup.length,
      payment_value_sum := (rows.map (·.payment_value)).sum }

/-- Quantile of a sorted list `ys` at `q = k / 4`, by linear interpolation
at position `q * (n - 1)` (the interpolation used by `Series.quantile`,
hence by `pd.qcut`). -/
def qEdge (ys : List ℚ) (k : ℕ) : ℚ :=
  let pos : ℚ := (k * ((ys.length : ℚ) - 1)) / 4
  let l : ℕ := pos.floor.toNat
  let frac : ℚ := pos - l
  let lo : ℚ := ys.getD l 0
  let hi : ℚ := ys.getD (l + 1) lo
  lo + frac * (hi - lo)

/-- The five quartile bin edges `pd.qcut(xs, 4)` computes: quantiles of the
sorted values at `0, 1/4, 1/2, 3/4, 1`. -/
def qEdges (xs : List ℚ) : List ℚ :=
  let ys := xs.insertionSort (· ≤ ·)
  [qEdge ys 0, qEdge ys 1, qEdge ys 2, qEdge ys 3, qEdge ys 4]

/-- Bin index (0..3) of a value among the five edges: the intervals are
left-open, the lowest closed on the left, so the index is the number of
interior edges strictly below the value. -/
def qcutBin (edges : List ℚ) (v : ℚ) : ℕ :=
  ((edges.drop 1).take 3).countP fun e => decide (e < v)

/-- Embeds `pd.qcut(xs, 4, labels)`: `none` when the input is empty or the five
bin edges are not pairwise distinct (pandas raises `ValueError: Bin edges
must be unique`); otherwise each value is mapped to the label of its bin. -/
def qcut (xs : List ℚ) (labels : List ℕ) : Option (List ℕ) :=
  if xs.isEmpty then none
  else if (qEdges xs).Nodup then
    some (xs.map fun v => labels.getD (qcutBin (qEdges xs) v) 0)
  else none

/-- Embeds the pandas rank with method first: the rank of the element at position `i` is
one plus the number of positions holding a smaller value, or an equal value
at an earlier position. -/
def rankFirst (xs : List ℚ) : List ℚ :=
  (List.range xs.length).map fun i =>
    (1 : ℚ) + ((List.range xs.length).countP fun j =>
      decide (xs.getD j 0 < xs.getD i 0 ∨ (xs.getD j 0 = xs.getD i 0 ∧ j < i)))

/-- Source `snapshot_date`: the maximum order_purchase_timestamp of the
filtered rows plus a Timedelta of 1 day, one day being 86400 seconds. -/
def snapshot_date (df : List OrderRow) (w : DateWindow) : ℤ :=
  listMax ((filtered_df df w).map (·.order_purchase_timestamp)) + 86400

/-- One row of the pre-score RFM table: per-customer Recency, Frequency
and Monetary. -/
structure RFMBase where
  customer_unique_id : ℕ
  Recency : ℤ
  Frequency : ℕ
  Monetary : ℚ
deriving DecidableEq, Repr

/-- Source `rfm`: group the filtered rows by customer_unique_id (keys
sorted ascending, as the pandas groupby sorts), holding Recency (the days
attribute of snapshot_date minus the latest customer timestamp, which
floors the difference in days), Frequency (order_id nunique) and Monetary
(payment_value sum). -/
def rfm (df : List OrderRow) (w : DateWindow) : List RFMBase :=
  let fd := filtered_df df w
  (((fd.map (·.customer_unique_id)).dedup).insertionSort (· ≤ ·)).map fun c =>
    let rows := fd.filter fun r => decide (r.customer_unique_id = c)
    { customer_unique_id := c,
      Recency := (snapshot_date df w -
        listMax (rows.map (·.order_purchase_timestamp))).fdiv 86400,
      Frequency := (rows.map (·.order_id)).dedup.length,
      Monetary := (rows.map (·.payment_value)).sum }

/-- Modelled from the spec: the error taxonomy of §7.  The source lets the
underlying library raise at the corresponding places (an empty filtered
window degenerates the snapshot/quantile computation; `pd.qcut` raises on
non-unique bin edges); the spec names these `InsufficientDataError` and
`QuantileComputationError`. -/
inductive RFMError where
  | insufficientData
  | quantileComputation
deriving DecidableEq, Repr

/-- Source `segment` classification, a function of `R_score`
and `F_score` alone, evaluated in precedence order. -/
def segment (R_score F_score : ℕ) : String :=
  if R_score = 4 ∧ 3 ≤ F_score then "Loyal"
  else if 3 ≤ R_score then "Potential"
  else "At Risk"

/-- One fully scored output row of the RFM pipeline. -/
structure RFMRecord where
  customer_unique_id : ℕ
  Recency : ℤ
  Frequency : ℕ
  Monetary : ℚ
  R_score : ℕ
  F_score : ℕ
  M_score : ℕ
  Segment : String
deriving DecidableEq, Repr

/-- The RFM pipeline of the customer-segmentation tab: filter, snapshot
date, per-customer aggregation, the three `pd.qcut` scorings
(`R_score` with labels `[4,3,2,1]` on Recency, `F_score` with labels
`[1,2,3,4]` on the method-first rank of Frequency, `M_score` with labels
`[1,2,3,4]` on Monetary) and the `segment` rule.  Failures are reported
through the spec error taxonomy `RFMError`. -/
def segment_customers (df : List OrderRow) (w : DateWindow) :
    Except RFMError (List RFMRecord) :=
  if (filtered_df df w).isEmpty then .error .insufficientData
  else
    match qcut ((rfm df w).map fun b => (b.Recency : ℚ)) [4, 3, 2, 1],
          qcut (rankFirst ((rfm df w).map fun b => (b.Frequency : ℚ))) [1, 2, 3, 4],
          qcut ((rfm df w).map (·.Monetary)) [1, 2, 3, 4] with
    | some rs, some fs, some ms =>
        .ok ((List.range (rfm df w).length).map fun i =>
          let b := (rfm df w).getD i ⟨0, 0, 0, 0⟩
          { customer_unique_id := b.customer_unique_id,
            Recency := b.Recency,
            Frequency := b.Frequency,
            Monetary := b.Monetary,
            R_score := rs.getD i 0,
            F_score := fs.getD i 0,
            M_score := ms.getD i 0,
            Segment := segment (rs.getD i 0) (fs.getD i 0) })
    | _, _, _ => .error .quantileComputation


/-! ### Basic lemmas about the helper functions -/

theorem le_listMax : ∀ (l : List ℤ), ∀ x ∈ l, x ≤ listMax l := by
  intro l
  induction l with
  | nil => intro x hx; cases hx
  | cons a t ih =>
    intro x hx
    cases t with
    | nil =>
      rcases List.mem_cons.mp hx with h | h
      · subst h; exact le_refl _
      · cases h
    | cons b r =>
      show x ≤ max a (listMax (b :: r))
      rcases List.mem_cons.mp hx with h | h
      · subst h; exact le_max_left _ _
      · exact le_trans (ih x h) (le_max_right _ _)

theorem listMax_mem : ∀ (l : List ℤ), l ≠ [] → listMax l ∈ l := by
  intro l
  induction l with
  | nil => intro h; exact absurd rfl h
  | cons a t ih =>
    intro _
    cases t with
    | nil => exact List.mem_singleton.mpr rfl
    | cons b r =>
      show max a (listMax (b :: r)) ∈ a :: b :: r
      rcases max_cases a (listMax (b :: r)) with ⟨h, _⟩ | ⟨h, _⟩
      · rw [h]; exact List.mem_cons_self _ _
      · rw [h]; exact List.mem_cons_of_mem _ (ih (by simp))

theorem range_map_getD {α : Type} (l : List α) (d : α) :
    (List.range l.length).map (fun i => l.getD i d) = l := by
  apply List.ext_getElem (by simp)
  intro i h1 h2
  simp only [List.getElem_map, List.getElem_range]
  exact List.getD_eq_getElem l d h2

theorem range_map_getD_comp {α β : Type} (l : List α) (d : α) (h : α → β) :
    (List.range l.length).map (fun i => h (l.getD i d)) = l.map h := by
  have e : (List.range l.length).map (fun i => h (l.getD i d)) =
      ((List.range l.length).map (fun i => l.getD i d)).map h := by
    rw [List.map_map]; rfl
  rw [e, range_map_getD]

theorem countP_getD_range {α : Type} (l : List α) (d : α) (p : α → Bool) :
    ((List.range l.length).countP fun i => p (l.getD i d)) = l.countP p := by
  have e : ((List.range l.length).countP fun i => p (l.getD i d)) =
      ((List.range l.length).map fun i => l.getD i d).countP p := by
    rw [List.countP_map]; rfl
  rw [e, range_map_getD]

theorem fdiv_day_pos {a : ℤ} (h : 86400 ≤ a) : 1 ≤ a.fdiv 86400 := by
  rw [Int.fdiv_eq_ediv _ (by norm_num)]
  omega

/-! ### Inversion lemmas for qcut and the RFM pipeline -/

theorem qcut_ok_inv {xs : List ℚ} {labels ls : List ℕ} (h : qcut xs labels = some ls) :
    xs.isEmpty = false ∧ (qEdges xs).Nodup ∧
    ls = xs.map fun v => labels.getD (qcutBin (qEdges xs) v) 0 := by
  unfold qcut at h
  split at h
  · cases h
  · next hemp =>
    split at h
    · next hnd => exact ⟨Bool.not_eq_true _ ▸ hemp, hnd, (Option.some.injEq _ _ ▸ h).symm⟩
    · cases h

theorem qcut_length {xs : List ℚ} {labels ls : List ℕ} (h : qcut xs labels = some ls) :
    ls.length = xs.length := by
  rw [(qcut_ok_inv h).2.2, List.length_map]

theorem qcut_eq_none_of_dup {xs : List ℚ} {labels : List ℕ}
    (h : ¬ (qEdges xs).Nodup) : qcut xs labels = none := by
  unfold qcut
  split <;> simp_all

theorem segment_customers_ok_inv {df : List OrderRow} {w : DateWindow}
    {recs : List RFMRecord} (h : segment_customers df w = .ok recs) :
    (filtered_df df w).isEmpty = false ∧
    ∃ rs fs ms,
      qcut ((rfm df w).map fun b => (b.Recency : ℚ)) [4, 3, 2, 1] = some rs ∧
      qcut (rankFirst ((rfm df w).map fun b => (b.Frequency : ℚ))) [1, 2, 3, 4]
        = some fs ∧
      qcut ((rfm df w).map (·.Monetary)) [1, 2, 3, 4] = some ms ∧
      recs = (List.range (rfm df w).length).map fun i =>
        let b := (rfm df w).getD i ⟨0, 0, 0, 0⟩
        { customer_unique_id := b.customer_unique_id,
          Recency := b.Recency, Frequency := b.Frequency, Monetary := b.Monetary,
          R_score := rs.getD i 0, F_score := fs.getD i 0, M_score := ms.getD i 0,
          Segment := segment (rs.getD i 0) (fs.getD i 0) } := by
  unfold segment_customers at h
  split at h
  · cases h
  · next hemp =>
    refine ⟨Bool.not_eq_true _ ▸ hemp, ?_⟩
    split at h
    · next rs fs ms hrs hfs hms =>
      exact ⟨rs, fs, ms, hrs, hfs, hms, (Except.ok.injEq _ _ ▸ h).symm⟩
    · cases h

theorem rfm_mem {df : List OrderRow} {w : DateWindow} {b : RFMBase}
    (hb : b ∈ rfm df w) :
    (∃ r ∈ filtered_df df w, r.customer_unique_id = b.customer_unique_id) ∧
    b.Recency = (snapshot_date df w -
      listMax (((filtered_df df w).filter fun r =>
        decide (r.customer_unique_id = b.customer_unique_id)).map
          (·.order_purchase_timestamp))).fdiv 86400 ∧
    b.Frequency = (((filtered_df df w).filter fun r =>
      decide (r.customer_unique_id = b.customer_unique_id)).map
        (·.order_id)).dedup.length ∧
    b.Monetary = (((filtered_df df w).filter fun r =>
      decide (r.customer_unique_id = b.customer_unique_id)).map
        (·.payment_value)).sum := by
  unfold rfm at hb
  rcases List.mem_map.mp hb with ⟨c, hc, rfl⟩
  have hc2 : c ∈ (filtered_df df w).map (·.customer_unique_id) := by
    have := (List.perm_insertionSort (· ≤ ·)
      ((filtered_df df w).map (·.customer_unique_id)).dedup).mem_iff.mp hc
    exact List.mem_dedup.mp this
  rcases List.mem_map.mp hc2 with ⟨r, hr, hrc⟩
  exact ⟨⟨r, hr, hrc⟩, rfl, rfl, rfl⟩

theorem segment_customers_ok_mem {df : List OrderRow} {w : DateWindow}
    {recs : List RFMRecord} (h : segment_customers df w = .ok recs) :
    ∀ rec ∈ recs, ∃ b ∈ rfm df w,
      rec.customer_unique_id = b.customer_unique_id ∧
      rec.Recency = b.Recency ∧ rec.Frequency = b.Frequency ∧
      rec.Monetary = b.Monetary ∧
      rec.Segment = segment rec.R_score rec.F_score := by
  rcases segment_customers_ok_inv h with ⟨-, rs, fs, ms, -, -, -, hrecs⟩
  subst hrecs
  intro rec hrec
  rcases List.mem_map.mp hrec with ⟨i, hi, rfl⟩
  have hlt : i < (rfm df w).length := List.mem_range.mp hi
  refine ⟨(rfm df w).getD i ⟨0, 0, 0, 0⟩, ?_, rfl, rfl, rfl, rfl, rfl⟩
  rw [List.getD_eq_getElem _ _ hlt]
  exact List.getElem_mem hlt

/-! ### Claim theorems -/

/-- C1: every customer record produced by the RFM pipeline carries the
Segment determined from its two scores by the fixed precedence rule of the
source `segment` function, and on the whole score grid {1,2,3,4}^3 that
rule gives Loyal exactly when `R_score = 4` and `F_score >= 3`, else
Potential exactly when `R_score >= 3`, else At Risk. -/
theorem C1_classification_rule (df : List OrderRow) (w : DateWindow)
    (recs : List RFMRecord) (hok : segment_customers df w = .ok recs) :
    (∀ rec ∈ recs, rec.Segment = segment rec.R_score rec.F_score) ∧
    (∀ r ∈ [1, 2, 3, 4], ∀ f ∈ [1, 2, 3, 4], ∀ m ∈ [1, 2, 3, 4],
      (segment r f = "Loyal" ↔ (r = 4 ∧ 3 ≤ f)) ∧
      (segment r f = "Potential" ↔ (¬(r = 4 ∧ 3 ≤ f) ∧ 3 ≤ r)) ∧
      (segment r f = "At Risk" ↔ (¬(r = 4 ∧ 3 ≤ f) ∧ ¬3 ≤ r))) := by
  constructor
  · intro rec hrec
    rcases segment_customers_ok_mem hok rec hrec with ⟨b, -, -, -, -, -, hseg⟩
    exact hseg
  · intro r hr f hf m _
    fin_cases hr <;> fin_cases hf <;> decide

/-- C3: an empty filtered window makes the RFM pipeline fail with the
InsufficientDataError of the spec taxonomy, and a non-empty filtered
window never produces that error. -/
theorem C3_insufficient_data (df : List OrderRow) (w : DateWindow) :
    (filtered_df df w = [] →
      segment_customers df w = .error .insufficientData) ∧
    (filtered_df df w ≠ [] →
      segment_customers df w ≠ .error .insufficientData) := by
  constructor
  · intro he
    unfold segment_customers
    rw [if_pos (by simp [he])]
  · intro hne
    unfold segment_customers
    rw [if_neg (by simpa using hne)]
    split <;> simp

/-- C5: a row whose purchase timestamp lies strictly outside the inclusive
window contributes to no monthly bucket, to neither window-level scalar,
and to no RFM customer record, while a row inside the window (inclusive on
both ends) is retained by the filter. -/
theorem C5_window_filter (w : DateWindow) (r : OrderRow) (df : List OrderRow) :
    (¬(w.start_date ≤ r.order_purchase_timestamp ∧
        r.order_purchase_timestamp ≤ w.end_date) →
      filtered_df (r :: df) w = filtered_df df w ∧
      monthly (r :: df) w = monthly df w ∧
      total_orders (r :: df) w = total_orders df w ∧
      total_revenue (r :: df) w = total_revenue df w ∧
      segment_customers (r :: df) w = segment_customers df w) ∧
    ((w.start_date ≤ r.order_purchase_timestamp ∧
        r.order_purchase_timestamp ≤ w.end_date) →
      r ∈ filtered_df (r :: df) w) := by
  constructor
  · intro hout
    have hf : filtered_df (r :: df) w = filtered_df df w := by
      unfold filtered_df
      rw [List.filter_cons]
      split
      · next hcond =>
        simp only [Bool.and_eq_true, decide_eq_true_eq] at hcond
        exact absurd hcond hout
      · rfl
    refine ⟨hf, ?_, ?_, ?_, ?_⟩ <;>
      simp only [monthly, total_orders, total_revenue, segment_customers,
        rfm, snapshot_date, hf]
  · intro hin
    unfold filtered_df
    exact List.mem_filter.mpr ⟨List.mem_cons_self _ _, by simp [hin.1, hin.2]⟩

/-- C2: when the filtered customer set has too few distinct value groups to
form 4 quartiles — formalized as duplicate quartile bin edges for any of
the three scored metrics, exactly the condition on which `pd.qcut` raises —
the RFM pipeline fails with the QuantileComputationError of the spec
taxonomy instead of emitting scores with collapsed bucket boundaries. -/
theorem C2_quantile_failure (df : List OrderRow) (w : DateWindow)
    (hne : filtered_df df w ≠ [])
    (hdup :
      ¬ (qEdges ((rfm df w).map fun b => (b.Recency : ℚ))).Nodup ∨
      ¬ (qEdges (rankFirst ((rfm df w).map fun b => (b.Frequency : ℚ)))).Nodup ∨
      ¬ (qEdges ((rfm df w).map (·.Monetary))).Nodup) :
    segment_customers df w = .error .quantileComputation := by
  unfold segment_customers
  rw [if_neg (by simpa using hne)]
  rcases hdup with h | h | h <;> rw [qcut_eq_none_of_dup h] <;>
    first
    | rfl
    | (cases qcut ((rfm df w).map fun b => (b.Recency : ℚ)) [4, 3, 2, 1] <;>
        first
        | rfl
        | (cases qcut (rankFirst ((rfm df w).map fun b => (b.Frequency : ℚ)))
              [1, 2, 3, 4] <;> rfl))

/-- C6: the monthly aggregation emits exactly one bucket per calendar
year-month that has at least one in-window row, in strictly ascending
month order, and each bucket carries the distinct-order count and the
payment-value sum (installment rows included) of the rows of its month. -/
theorem C6_monthly_buckets (df : List OrderRow) (w : DateWindow) :
    List.Sorted (· < ·) ((monthly df w).map (·.order_month)) ∧
    (∀ k : ℤ, k ∈ (monthly df w).map (·.order_month) ↔
      ∃ r ∈ filtered_df df w, order_month r = k) ∧
    ∀ b ∈ monthly df w,
      b.order_id_nunique = (((filtered_df df w).filter fun r =>
        decide (order_month r = b.order_month)).map
          (·.order_id)).dedup.length ∧
      b.payment_value_sum = (((filtered_df df w).filter fun r =>
        decide (order_month r = b.order_month)).map
          (·.payment_value)).sum := by
  have hkeys : (monthly df w).map (·.order_month) =
      (((filtered_df df w).map order_month).dedup).insertionSort (· ≤ ·) := by
    unfold monthly
    rw [List.map_map]
    exact List.map_id _
  refine ⟨?_, ?_, ?_⟩
  · rw [hkeys]
    have hsort := List.sorted_insertionSort (· ≤ ·)
      (((filtered_df df w).map order_month).dedup)
    have hnd : ((((filtered_df df w).map order_month).dedup).insertionSort
        (· ≤ ·)).Nodup :=
      (List.perm_insertionSort _ _).nodup_iff.mpr (List.nodup_dedup _)
    exact (hsort.and hnd).imp fun h => lt_of_le_of_ne h.1 h.2
  · intro k
    rw [hkeys, (List.perm_insertionSort (· ≤ ·) _).mem_iff, List.mem_dedup,
      List.mem_map]
  · intro b hb
    unfold monthly at hb
    rcases List.mem_map.mp hb with ⟨k, hk, rfl⟩
    exact ⟨rfl, rfl⟩

theorem sum_map_ite_eq (x : ℚ) :
    ∀ (keys : List ℕ) (c₀ : ℕ), keys.Nodup → c₀ ∈ keys →
    (keys.map fun c => if c₀ = c then x else 0).sum = x := by
  intro keys
  induction keys with
  | nil => intro c₀ _ hc; cases hc
  | cons k t ih =>
    intro c₀ hnd hc
    rw [List.map_cons, List.sum_cons]
    rcases List.mem_cons.mp hc with h | h
    · subst h
      rw [if_pos rfl]
      have hzero : (t.map fun c => if c₀ = c then x else 0).sum = 0 := by
        apply List.sum_eq_zero
        intro y hy
        rcases List.mem_map.mp hy with ⟨c, hcmem, rfl⟩
        rw [if_neg]
        intro hcc
        exact (List.nodup_cons.mp hnd).1 (hcc ▸ hcmem)
      rw [hzero, add_zero]
    · have hk : c₀ ≠ k := by
        intro he
        exact (List.nodup_cons.mp hnd).1 (he ▸ h)
      rw [if_neg hk, zero_add]
      exact ih c₀ (List.nodup_cons.mp hnd).2 h

theorem sum_fiber_filter {α : Type} (key : α → ℕ) (f : α → ℚ)
    (keys : List ℕ) (hnd : keys.Nodup) :
    ∀ l : List α, (∀ r ∈ l, key r ∈ keys) →
    (keys.map fun c =>
      ((l.filter fun r => decide (key r = c)).map f).sum).sum = (l.map f).sum := by
  intro l
  induction l with
  | nil =>
    intro _
    simp only [List.filter_nil, List.map_nil, List.sum_nil]
    apply List.sum_eq_zero
    intro y hy
    rcases List.mem_map.mp hy with ⟨c, -, rfl⟩
    rfl
  | cons a t ih =>
    intro hcov
    have hcovt : ∀ r ∈ t, key r ∈ keys :=
      fun r hr => hcov r (List.mem_cons_of_mem _ hr)
    have hstep : ∀ c : ℕ,
        (((a :: t).filter fun r => decide (key r = c)).map f).sum =
        (if key a = c then f a else 0) +
          ((t.filter fun r => decide (key r = c)).map f).sum := by
      intro c
      rw [List.filter_cons]
      by_cases h : key a = c
      · simp [h]
      · simp [h]
    calc (keys.map fun c =>
            (((a :: t).filter fun r => decide (key r = c)).map f).sum).sum
        = (keys.map fun c => (if key a = c then f a else 0) +
            ((t.filter fun r => decide (key r = c)).map f).sum).sum := by
          exact congrArg List.sum (List.map_congr_left fun c _ => hstep c)
      _ = (keys.map fun c => if key a = c then f a else 0).sum +
            (keys.map fun c =>
              ((t.filter fun r => decide (key r = c)).map f).sum).sum :=
          List.sum_map_add
      _ = f a + (t.map f).sum := by
          rw [sum_map_ite_eq (f a) keys (key a) hnd (hcov a (List.mem_cons_self _ _)),
            ih hcovt]
      _ = ((a :: t).map f).sum := by rw [List.map_cons, List.sum_cons]

/-- C9: the Monetary column of the emitted RFM records sums to the
window-level total revenue scalar: the per-customer grouping loses no
payment value. -/
theorem C9_monetary_sum (df : List OrderRow) (w : DateWindow)
    (recs : List RFMRecord) (hok : segment_customers df w = .ok recs) :
    (recs.map (·.Monetary)).sum = total_revenue df w := by
  rcases segment_customers_ok_inv hok with ⟨-, rs, fs, ms, -, -, -, hrecs⟩
  subst hrecs
  have h1 : (((List.range (rfm df w).length).map fun i =>
      let b := (rfm df w).getD i ⟨0, 0, 0, 0⟩
      ({ customer_unique_id := b.customer_unique_id,
         Recency := b.Recency, Frequency := b.Frequency, Monetary := b.Monetary,
         R_score := rs.getD i 0, F_score := fs.getD i 0, M_score := ms.getD i 0,
         Segment := segment (rs.getD i 0) (fs.getD i 0) } : RFMRecord)).map
          (·.Monetary)) = (rfm df w).map (·.Monetary) := by
    rw [List.map_map]
    exact range_map_getD_comp (rfm df w) ⟨0, 0, 0, 0⟩ (·.Monetary)
  rw [h1]
  have h2 : (rfm df w).map (·.Monetary) =
      ((((filtered_df df w).map (·.customer_unique_id)).dedup).insertionSort
        (· ≤ ·)).map fun c =>
        (((filtered_df df w).filter fun r =>
          decide (r.customer_unique_id = c)).map (·.payment_value)).sum := by
    unfold rfm
    rw [List.map_map]
    rfl
  rw [h2]
  exact sum_fiber_filter (·.customer_unique_id) (·.payment_value) _
    ((List.perm_insertionSort (· ≤ ·)
      (((filtered_df df w).map (·.customer_unique_id)).dedup)).nodup_iff.mpr
      (List.nodup_dedup _))
    (filtered_df df w)
    (fun r hr => (List.perm_insertionSort (· ≤ ·)
      (((filtered_df df w).map (·.customer_unique_id)).dedup)).mem_iff.mpr
      (List.mem_dedup.mpr (List.mem_map.mpr ⟨r, hr, rfl⟩)))

/-- C8: for every successful run the snapshot instant equals the maximum
in-window purchase timestamp plus one day (86400 seconds), and each
emitted record has as Recency the whole number of days (floored) between
the snapshot instant and the most recent in-window purchase of the
customer of that record. -/
theorem C8_snapshot_recency (df : List OrderRow) (w : DateWindow)
    (recs : List RFMRecord) (hok : segment_customers df w = .ok recs) :
    snapshot_date df w =
      listMax ((filtered_df df w).map (·.order_purchase_timestamp)) + 86400 ∧
    ∀ rec ∈ recs, rec.Recency =
      (snapshot_date df w - listMax (((filtered_df df w).filter fun r =>
        decide (r.customer_unique_id = rec.customer_unique_id)).map
          (·.order_purchase_timestamp))).fdiv 86400 := by
  refine ⟨rfl, ?_⟩
  intro rec hrec
  rcases segment_customers_ok_mem hok rec hrec with ⟨b, hb, hcust, hrcy, -, -, -⟩
  rw [hrcy, hcust, (rfm_mem hb).2.1]

/-- C10: every emitted record has Recency at least 1: the snapshot instant
is one day past the window maximum, and no customer purchases after that
maximum. -/
theorem C10_recency_pos (df : List OrderRow) (w : DateWindow)
    (recs : List RFMRecord) (hok : segment_customers df w = .ok recs) :
    ∀ rec ∈ recs, 1 ≤ rec.Recency := by
  intro rec hrec
  rcases segment_customers_ok_mem hok rec hrec with ⟨b, hb, -, hrcy, -, -, -⟩
  rw [hrcy]
  rcases rfm_mem hb with ⟨⟨r, hr, hrc⟩, hfm, -, -⟩
  rw [hfm]
  apply fdiv_day_pos
  have hfiber_ne : ((filtered_df df w).filter fun r2 =>
      decide (r2.customer_unique_id = b.customer_unique_id)) ≠ [] := by
    intro hemp
    have hrmem : r ∈ (filtered_df df w).filter fun r2 =>
        decide (r2.customer_unique_id = b.customer_unique_id) :=
      List.mem_filter.mpr ⟨hr, by simp [hrc]⟩
    rw [hemp] at hrmem
    cases hrmem
  have hne2 : (((filtered_df df w).filter fun r2 =>
      decide (r2.customer_unique_id = b.customer_unique_id)).map
        (·.order_purchase_timestamp)) ≠ [] := by
    simpa using hfiber_ne
  rcases List.mem_map.mp (listMax_mem _ hne2) with ⟨r2, hr2, hts⟩
  have hle : listMax (((filtered_df df w).filter fun r2 =>
      decide (r2.customer_unique_id = b.customer_unique_id)).map
        (·.order_purchase_timestamp)) ≤
      listMax ((filtered_df df w).map (·.order_purchase_timestamp)) := by
    rw [← hts]
    exact le_listMax _ _
      (List.mem_map.mpr ⟨r2, (List.mem_filter.mp hr2).1, rfl⟩)
  unfold snapshot_date
  omega

theorem sum_map_nat_except (g₁ g₂ : ℤ → ℕ) (δ : ℕ) :
    ∀ (keys : List ℤ) (c₀ : ℤ), keys.Nodup → c₀ ∈ keys →
    (∀ k ∈ keys, k ≠ c₀ → g₁ k = g₂ k) → g₁ c₀ = g₂ c₀ + δ →
    (keys.map g₁).sum = (keys.map g₂).sum + δ := by
  intro keys
  induction keys with
  | nil => intro c₀ _ hc _ _; cases hc
  | cons k t ih =>
    intro c₀ hnd hc hoth hc0
    rw [List.map_cons, List.sum_cons, List.map_cons, List.sum_cons]
    rcases List.mem_cons.mp hc with h | h
    · subst h
      have ht : t.map g₁ = t.map g₂ :=
        List.map_congr_left fun x hx =>
          hoth x (List.mem_cons_of_mem _ hx)
            (fun he => (List.nodup_cons.mp hnd).1 (he ▸ hx))
      rw [hc0, ht]
      omega
    · have hk : k ≠ c₀ := fun he => (List.nodup_cons.mp hnd).1 (he ▸ h)
      rw [hoth k (List.mem_cons_self _ _) hk,
        ih c₀ (List.nodup_cons.mp hnd).2 h
          (fun x hx hne => hoth x (List.mem_cons_of_mem _ hx) hne) hc0]
      omega

theorem dedup_fiber_count {α : Type} [DecidableEq α] (key : α → ℤ) (o : α → ℕ)
    (keys : List ℤ) (hnd : keys.Nodup) :
    ∀ l : List α, (∀ r ∈ l, key r ∈ keys) →
    (∀ r ∈ l, ∀ r2 ∈ l, o r = o r2 → key r = key r2) →
    (keys.map fun k =>
      ((l.filter fun r => decide (key r = k)).map o).dedup.length).sum
      = (l.map o).dedup.length := by
  intro l
  induction l with
  | nil =>
    intro _ _
    simp only [List.filter_nil, List.map_nil, List.dedup_nil, List.length_nil]
    apply List.sum_eq_zero
    intro y hy
    rcases List.mem_map.mp hy with ⟨k, -, rfl⟩
    rfl
  | cons a t ih =>
    intro hcov hcoh
    have hcovt : ∀ r ∈ t, key r ∈ keys :=
      fun r hr => hcov r (List.mem_cons_of_mem _ hr)
    have hcoht : ∀ r ∈ t, ∀ r2 ∈ t, o r = o r2 → key r = key r2 :=
      fun r hr r2 hr2 => hcoh r (List.mem_cons_of_mem _ hr) r2
        (List.mem_cons_of_mem _ hr2)
    have hfilter : ∀ k : ℤ, (a :: t).filter (fun r => decide (key r = k)) =
        if key a = k then a :: t.filter (fun r => decide (key r = k))
        else t.filter (fun r => decide (key r = k)) := by
      intro k
      rw [List.filter_cons]
      by_cases h : key a = k
      · simp [h]
      · simp [h]
    by_cases hmem : o a ∈ t.map o
    · have hrhs : ((a :: t).map o).dedup.length = (t.map o).dedup.length := by
        rw [List.map_cons, List.dedup_cons_of_mem hmem]
      rw [hrhs, ← ih hcovt hcoht]
      apply congrArg List.sum
      apply List.map_congr_left
      intro k hk
      rw [hfilter k]
      by_cases hka : key a = k
      · rw [if_pos hka]
        rcases List.mem_map.mp hmem with ⟨r, hr, hro⟩
        have hkey : key r = key a :=
          hcoh r (List.mem_cons_of_mem _ hr) a (List.mem_cons_self _ _) hro
        have hrf : r ∈ t.filter (fun r2 => decide (key r2 = k)) :=
          List.mem_filter.mpr ⟨hr, by simp [hkey, hka]⟩
        have : o a ∈ (t.filter (fun r2 => decide (key r2 = k))).map o :=
          List.mem_map.mpr ⟨r, hrf, hro⟩
        rw [List.map_cons, List.dedup_cons_of_mem this]
      · rw [if_neg hka]
    · have hrhs : ((a :: t).map o).dedup.length = (t.map o).dedup.length + 1 := by
        rw [List.map_cons, List.dedup_cons_of_not_mem hmem, List.length_cons]
      rw [hrhs, ← ih hcovt hcoht]
      apply sum_map_nat_except _ _ 1 keys (key a) hnd
        (hcov a (List.mem_cons_self _ _))
      · intro k hk hka
        rw [hfilter k, if_neg (fun he => hka he.symm)]
      · rw [hfilter (key a), if_pos rfl]
        have hnot : o a ∉ (t.filter
            (fun r2 => decide (key r2 = key a))).map o := by
          intro hmem2
          rcases List.mem_map.mp hmem2 with ⟨r, hr, hro⟩
          exact hmem (List.mem_map.mpr ⟨r, (List.mem_filter.mp hr).1, hro⟩)
        rw [List.map_cons, List.dedup_cons_of_not_mem hnot, List.length_cons]

/-- C7 (amended): when every order identifier of the filtered window falls
in a single calendar month — true of the pre-joined dataset, where the
purchase timestamp is an attribute of the order — the per-bucket
distinct-order counts of the monthly aggregation sum to the window-level
total distinct order count. -/
theorem C7_amended_bucket_coverage (df : List OrderRow) (w : DateWindow)
    (hcoh : ∀ r ∈ filtered_df df w, ∀ r2 ∈ filtered_df df w,
      r.order_id = r2.order_id → order_month r = order_month r2) :
    ((monthly df w).map (·.order_id_nunique)).sum = total_orders df w := by
  have hmap : (monthly df w).map (·.order_id_nunique) =
      ((((filtered_df df w).map order_month).dedup).insertionSort
        (· ≤ ·)).map fun k =>
        (((filtered_df df w).filter fun r =>
          decide (order_month r = k)).map (·.order_id)).dedup.length := by
    unfold monthly
    rw [List.map_map]
    rfl
  rw [hmap]
  unfold total_orders
  exact dedup_fiber_count order_month (·.order_id) _
    ((List.perm_insertionSort (· ≤ ·)
      (((filtered_df df w).map order_month).dedup)).nodup_iff.mpr
      (List.nodup_dedup _))
    (filtered_df df w)
    (fun r hr => (List.perm_insertionSort (· ≤ ·)
      (((filtered_df df w).map order_month).dedup)).mem_iff.mpr
      (List.mem_dedup.mpr (List.mem_map.mpr ⟨r, hr, rfl⟩)))
    hcoh

theorem countP_lt_of_mem {α : Type} (p q : α → Bool) :
    ∀ (l : List α) (i : α), i ∈ l → l.Nodup → p i = false → q i = true →
    (∀ a ∈ l, p a = true → q a = true) → l.countP p < l.countP q := by
  intro l
  induction l with
  | nil => intro i hi; cases hi
  | cons a t ih =>
    intro i hi hnd hpi hqi himp
    rw [List.countP_cons, List.countP_cons]
    rcases List.mem_cons.mp hi with h | h
    · subst h
      have hle : t.countP p ≤ t.countP q :=
        List.countP_mono_left fun x hx hpx =>
          himp x (List.mem_cons_of_mem _ hx) hpx
      rw [hpi, hqi]
      simp only [Bool.false_eq_true, if_false, if_true]
      omega
    · have ht := ih i h (List.nodup_cons.mp hnd).2 hpi hqi
        (fun x hx hpx => himp x (List.mem_cons_of_mem _ hx) hpx)
      cases hpa : p a
      · cases hqa : q a <;>
          simp only [Bool.false_eq_true, if_false, if_true] <;> omega
      · rw [himp a (List.mem_cons_self _ _) hpa]
        simp only [if_true]
        omega

theorem rankFirst_length (xs : List ℚ) : (rankFirst xs).length = xs.length := by
  unfold rankFirst
  rw [List.length_map, List.length_range]


/-- The list `[1, 2, ..., n]` over `ℚ`: the multiset of method-first ranks. -/
def oneToN (n : ℕ) : List ℚ :=
  (List.range n).map fun (i : ℕ) => (1 : ℚ) + (i : ℚ)

theorem oneToN_length (n : ℕ) : (oneToN n).length = n := by
  unfold oneToN
  rw [List.length_map, List.length_range]

theorem oneToN_getD (n j : ℕ) (hj : j < n) (d : ℚ) :
    (oneToN n).getD j d = 1 + (j : ℚ) := by
  unfold oneToN
  rw [List.getD_eq_getElem _ _ (by simpa using hj)]
  simp

theorem oneToN_sorted (n : ℕ) : List.Sorted (· ≤ ·) (oneToN n) := by
  unfold oneToN
  rw [List.Sorted, List.pairwise_map]
  exact (List.pairwise_lt_range n).imp fun h => by
    have hc : ((_ : ℕ) : ℚ) ≤ _ := Nat.cast_le.mpr (le_of_lt h)
    linarith

theorem rankFirst_perm (xs : List ℚ) :
    (rankFirst xs).Perm (oneToN xs.length) := by
  set n := xs.length with hn
  set r : ℕ → ℕ := fun i => (List.range n).countP fun j =>
    decide (xs.getD j 0 < xs.getD i 0 ∨
      (xs.getD j 0 = xs.getD i 0 ∧ j < i)) with hr
  have hmap : rankFirst xs =
      ((List.range n).map r).map fun (m : ℕ) => (1 : ℚ) + (m : ℚ) := by
    unfold rankFirst
    rw [List.map_map]
    rfl
  have hmono : ∀ i ∈ List.range n, ∀ j ∈ List.range n,
      (xs.getD i 0 < xs.getD j 0 ∨ (xs.getD i 0 = xs.getD j 0 ∧ i < j)) →
      r i < r j := by
    intro i hi j hj hlex
    apply countP_lt_of_mem _ _ (List.range n) i hi (List.nodup_range _)
    · simp
    · simpa using hlex
    · intro a _ hpa
      simp only [decide_eq_true_eq] at hpa ⊢
      rcases hpa with h1 | ⟨h1, h2⟩
      · rcases hlex with h3 | ⟨h3, -⟩
        · exact Or.inl (lt_trans h1 h3)
        · exact Or.inl (by rw [← h3]; exact h1)
      · rcases hlex with h3 | ⟨h3, h4⟩
        · exact Or.inl (by rw [h1]; exact h3)
        · exact Or.inr ⟨h1.trans h3, lt_trans h2 h4⟩
  have hperm : ((List.range n).map r).Perm (List.range n) := by
    have hinj : ∀ i ∈ List.range n, ∀ j ∈ List.range n, r i = r j → i = j := by
      intro i hi j hj hrij
      by_contra hne
      rcases lt_trichotomy (xs.getD i 0) (xs.getD j 0) with h | h | h
      · exact absurd hrij (Nat.ne_of_lt (hmono i hi j hj (Or.inl h)))
      · rcases Nat.lt_trichotomy i j with h2 | h2 | h2
        · exact absurd hrij (Nat.ne_of_lt (hmono i hi j hj (Or.inr ⟨h, h2⟩)))
        · exact hne h2
        · exact absurd hrij
            (Nat.ne_of_gt (hmono j hj i hi (Or.inr ⟨h.symm, h2⟩)))
      · exact absurd hrij (Nat.ne_of_gt (hmono j hj i hi (Or.inl h)))
    have hnd : ((List.range n).map r).Nodup :=
      List.Nodup.map_on hinj (List.nodup_range _)
    have hsub : (List.range n).map r ⊆ List.range n := by
      intro x hx
      rcases List.mem_map.mp hx with ⟨i, hi, rfl⟩
      apply List.mem_range.mpr
      have hlt : r i < (List.range n).countP fun _ => true := by
        apply countP_lt_of_mem _ _ (List.range n) i hi (List.nodup_range _)
        · simp
        · rfl
        · intro a _ _; rfl
      calc r i < (List.range n).countP fun _ => true := hlt
        _ = n := by
          rw [congrFun List.countP_true (List.range n), List.length_range]
    exact (List.Nodup.subperm hnd hsub).perm_of_length_le
      (by rw [List.length_map])
  rw [hmap]
  unfold oneToN
  exact hperm.map _

theorem sort_rankFirst (xs : List ℚ) :
    (rankFirst xs).insertionSort (· ≤ ·) = oneToN xs.length := by
  exact List.eq_of_perm_of_sorted
    ((List.perm_insertionSort _ _).trans (rankFirst_perm xs))
    (List.sorted_insertionSort _ _) (oneToN_sorted _)


theorem ratFloor_eq (q : ℚ) : q.floor = ⌊q⌋ :=
  (Rat.floor_def' q).trans Rat.floor_def.symm

theorem qEdge_oneToN_one (k : ℕ) : qEdge (oneToN 1) k = 1 := by
  unfold qEdge
  simp only [ratFloor_eq]
  rw [oneToN_length]
  norm_num
  norm_num [oneToN]

theorem interp_formula (n : ℕ) (hn : 2 ≤ n) (p : ℚ) (hp0 : 0 ≤ p)
    (hpn : p ≤ (n : ℚ) - 1) :
    (oneToN n).getD (⌊p⌋.toNat) 0 +
      (p - ((⌊p⌋.toNat : ℕ) : ℚ)) *
      ((oneToN n).getD (⌊p⌋.toNat + 1) ((oneToN n).getD (⌊p⌋.toNat) 0) -
        (oneToN n).getD (⌊p⌋.toNat) 0) = 1 + p := by
  have hfl0 : 0 ≤ ⌊p⌋ := Int.floor_nonneg.mpr hp0
  by_cases hcase : p = (n : ℚ) - 1
  · have hfl : ⌊p⌋ = (n : ℤ) - 1 := by
      rw [hcase, show ((n : ℚ) - 1) = (((n : ℤ) - 1 : ℤ) : ℚ) by push_cast; ring,
        Int.floor_intCast]
    have hl : ⌊p⌋.toNat = n - 1 := by omega
    rw [hl]
    have hgd2 : (oneToN n).getD ((n - 1) + 1) ((oneToN n).getD (n - 1) 0) =
        (oneToN n).getD (n - 1) 0 := by
      apply List.getD_eq_default
      rw [oneToN_length]
      omega
    rw [hgd2, oneToN_getD n (n - 1) (by omega) 0]
    rw [hcase]
    push_cast [Nat.cast_sub (by omega : 1 ≤ n)]
    ring
  · have hlt : p < (n : ℚ) - 1 := lt_of_le_of_ne hpn hcase
    have hfln : ⌊p⌋ < (n : ℤ) - 1 := by
      apply Int.floor_lt.mpr
      push_cast
      exact hlt
    have hl1 : ⌊p⌋.toNat + 1 < n := by omega
    rw [oneToN_getD n _ (by omega), oneToN_getD n _ hl1]
    push_cast
    ring

theorem qEdge_oneToN (n : ℕ) (hn : 2 ≤ n) (k : ℕ) (hk : k ≤ 4) :
    qEdge (oneToN n) k = 1 + ((k : ℚ) * ((n : ℚ) - 1)) / 4 := by
  unfold qEdge
  simp only [ratFloor_eq]
  rw [oneToN_length]
  have hn1 : (1 : ℚ) ≤ (n : ℚ) := by exact_mod_cast (by omega : 1 ≤ n)
  have hp0 : 0 ≤ (k : ℚ) * ((n : ℚ) - 1) / 4 := by
    apply div_nonneg _ (by norm_num)
    exact mul_nonneg (Nat.cast_nonneg k) (by linarith)
  have hpn : (k : ℚ) * ((n : ℚ) - 1) / 4 ≤ (n : ℚ) - 1 := by
    have hk4 : (k : ℚ) ≤ 4 := by exact_mod_cast hk
    nlinarith
  exact interp_formula n hn _ hp0 hpn

theorem countP_range_interval (a b : ℕ) (p : ℕ → Bool)
    (hp : ∀ i, p i = true ↔ a ≤ i ∧ i < b) :
    ∀ n, (List.range n).countP p = min b n - min a n := by
  intro n
  induction n with
  | zero => simp
  | succ m ihm =>
    rw [List.range_succ, List.countP_append, ihm]
    by_cases h : a ≤ m ∧ m < b
    · have hpm : p m = true := (hp m).mpr h
      simp only [List.countP_cons, List.countP_nil, hpm, if_true]
      omega
    · have hpm : p m = false := by
        cases hq : p m
        · rfl
        · exact absurd ((hp m).mp hq) h
      simp only [List.countP_cons, List.countP_nil, hpm, Bool.false_eq_true,
        if_false]
      omega

theorem countP_range_ge (a : ℕ) (p : ℕ → Bool)
    (hp : ∀ i, p i = true ↔ a ≤ i) :
    ∀ n, (List.range n).countP p = n - min a n := by
  intro n
  induction n with
  | zero => simp
  | succ m ihm =>
    rw [List.range_succ, List.countP_append, ihm]
    by_cases h : a ≤ m
    · have hpm : p m = true := (hp m).mpr h
      simp only [List.countP_cons, List.countP_nil, hpm, if_true]
      omega
    · have hpm : p m = false := by
        cases hq : p m
        · rfl
        · exact absurd ((hp m).mp hq) h
      simp only [List.countP_cons, List.countP_nil, hpm, Bool.false_eq_true,
        if_false]
      omega

theorem quartile_sizes (n : ℕ) (hn : 2 ≤ n) (j : ℕ) (hj : j < 4) :
    ((List.range n).countP fun i =>
      (([1, 2, 3].countP fun k => decide (k * (n - 1) < 4 * i)) == j)) = n / 4 ∨
    ((List.range n).countP fun i =>
      (([1, 2, 3].countP fun k => decide (k * (n - 1) < 4 * i)) == j))
        = (n + 3) / 4 := by
  interval_cases j
  · rw [countP_range_interval 0 ((n - 1) / 4 + 1)
      (fun i => (([1, 2, 3].countP fun k => decide (k * (n - 1) < 4 * i)) == 0))
      (by
        intro i
        by_cases h1 : n - 1 < 4 * i <;>
          by_cases h2 : 2 * (n - 1) < 4 * i <;>
          by_cases h3 : 3 * (n - 1) < 4 * i <;>
          simp [List.countP_cons, List.countP_nil, h1, h2, h3] <;> omega) n]
    omega
  · rw [countP_range_interval ((n - 1) / 4 + 1) (2 * (n - 1) / 4 + 1)
      (fun i => (([1, 2, 3].countP fun k => decide (k * (n - 1) < 4 * i)) == 1))
      (by
        intro i
        by_cases h1 : n - 1 < 4 * i <;>
          by_cases h2 : 2 * (n - 1) < 4 * i <;>
          by_cases h3 : 3 * (n - 1) < 4 * i <;>
          simp [List.countP_cons, List.countP_nil, h1, h2, h3] <;> omega) n]
    omega
  · rw [countP_range_interval (2 * (n - 1) / 4 + 1) (3 * (n - 1) / 4 + 1)
      (fun i => (([1, 2, 3].countP fun k => decide (k * (n - 1) < 4 * i)) == 2))
      (by
        intro i
        by_cases h1 : n - 1 < 4 * i <;>
          by_cases h2 : 2 * (n - 1) < 4 * i <;>
          by_cases h3 : 3 * (n - 1) < 4 * i <;>
          simp [List.countP_cons, List.countP_nil, h1, h2, h3] <;> omega) n]
    have hm : (n - 1) % 4 = 0 ∨ (n - 1) % 4 = 1 ∨ (n - 1) % 4 = 2 ∨
        (n - 1) % 4 = 3 := by omega
    rcases hm with hm | hm | hm | hm <;> omega
  · rw [countP_range_ge (3 * (n - 1) / 4 + 1)
      (fun i => (([1, 2, 3].countP fun k => decide (k * (n - 1) < 4 * i)) == 3))
      (by
        intro i
        by_cases h1 : n - 1 < 4 * i <;>
          by_cases h2 : 2 * (n - 1) < 4 * i <;>
          by_cases h3 : 3 * (n - 1) < 4 * i <;>
          simp [List.countP_cons, List.countP_nil, h1, h2, h3] <;> omega) n]
    omega

/-- C4 (amended): on every successful run of the RFM pipeline the F_score
partitions the n customers into four groups of size n/4 rounded down or up
(method-first ranking makes the ranks 1..n, so the quartile cut is
balanced); the counterexample shows R_score and M_score need not satisfy
this when metric values are tied. -/
theorem C4_amended_f_balance (df : List OrderRow) (w : DateWindow)
    (recs : List RFMRecord) (hok : segment_customers df w = .ok recs) :
    ∀ s ∈ [1, 2, 3, 4],
      (recs.countP fun rec => rec.F_score == s) = recs.length / 4 ∨
      (recs.countP fun rec => rec.F_score == s) = (recs.length + 3) / 4 := by
  rcases segment_customers_ok_inv hok with ⟨-, rs, fs, ms, -, hfs, -, hrecs⟩
  rcases qcut_ok_inv hfs with ⟨hne, hnd, hfseq⟩
  set F := (rfm df w).map fun b => (b.Frequency : ℚ) with hF
  set n := (rfm df w).length with hn
  have hFlen : F.length = n := by rw [hF, List.length_map, hn]
  have hxlen : (rankFirst F).length = n := by rw [rankFirst_length, hFlen]
  have hn1 : 1 ≤ n := by
    by_contra hcon
    have h0 : (rankFirst F).length = 0 := by omega
    rw [List.length_eq_zero] at h0
    rw [h0] at hne
    simp at hne
  have hsort : (rankFirst F).insertionSort (· ≤ ·) = oneToN n := by
    rw [sort_rankFirst, hFlen]
  have hqE : qEdges (rankFirst F) =
      [qEdge (oneToN n) 0, qEdge (oneToN n) 1, qEdge (oneToN n) 2,
       qEdge (oneToN n) 3, qEdge (oneToN n) 4] := by
    unfold qEdges
    rw [hsort]
  have hn2 : 2 ≤ n := by
    rcases Nat.lt_or_ge n 2 with hlt | hge
    · exfalso
      have hne1 : n = 1 := by omega
      rw [hqE, hne1] at hnd
      simp [qEdge_oneToN_one] at hnd
    · exact hge
  have hfslen : fs.length = n := by rw [qcut_length hfs, hxlen]
  have hrecslen : recs.length = n := by
    rw [hrecs, List.length_map, List.length_range]
  have hbineq : ∀ i : ℕ,
      qcutBin (qEdges (rankFirst F)) (1 + (i : ℚ)) =
        [1, 2, 3].countP fun k => decide (k * (n - 1) < 4 * i) := by
    intro i
    rw [hqE]
    show ([qEdge (oneToN n) 1, qEdge (oneToN n) 2, qEdge (oneToN n) 3].countP
      fun e => decide (e < 1 + (i : ℚ))) = _
    have he : ∀ k : ℕ, 1 ≤ k → k ≤ 3 →
        (decide (qEdge (oneToN n) k < 1 + (i : ℚ)) : Bool) =
        decide (k * (n - 1) < 4 * i) := by
      intro k hk1 hk3
      rw [qEdge_oneToN n hn2 k (by omega), decide_eq_decide,
        show ((n : ℚ) - 1) = ((n - 1 : ℕ) : ℚ) by
          push_cast [Nat.cast_sub hn1]; ring]
      constructor
      · intro h
        have h2 : (k : ℚ) * ((n - 1 : ℕ) : ℚ) < 4 * (i : ℚ) := by linarith
        exact_mod_cast h2
      · intro h
        have h2 : ((k * (n - 1) : ℕ) : ℚ) < ((4 * i : ℕ) : ℚ) :=
          Nat.cast_lt.mpr h
        push_cast at h2
        linarith
    simp only [List.countP_cons, List.countP_nil]
    rw [he 1 (by omega) (by omega), he 2 (by omega) (by omega),
      he 3 (by omega) (by omega)]
  have hbinle : ∀ i : ℕ,
      ([1, 2, 3].countP fun k => decide (k * (n - 1) < 4 * i)) ≤ 3 := by
    intro i
    exact le_trans (List.countP_le_length _) (by norm_num)
  have hlabels : ∀ b : ℕ, b ≤ 3 → [1, 2, 3, 4].getD b 0 = b + 1 := by
    intro b hb
    interval_cases b <;> rfl
  have key : ∀ j : ℕ, j < 4 →
      (recs.countP fun rec => rec.F_score == (j + 1)) = n / 4 ∨
      (recs.countP fun rec => rec.F_score == (j + 1)) = (n + 3) / 4 := by
    intro j hj
    have hc1 : (recs.countP fun rec => rec.F_score == (j + 1)) =
        fs.countP (fun x => x == (j + 1)) := by
      rw [hrecs, List.countP_map]
      have h := countP_getD_range fs 0 (fun x => x == (j + 1))
      rw [hfslen] at h
      exact h
    have hc2 : fs.countP (fun x => x == (j + 1)) =
        (rankFirst F).countP fun v =>
          [1, 2, 3, 4].getD (qcutBin (qEdges (rankFirst F)) v) 0 == (j + 1) := by
      rw [hfseq, List.countP_map]
      rfl
    have hperm : (rankFirst F).Perm (oneToN n) := by
      have h := rankFirst_perm F
      rwa [hFlen] at h
    have hc3 := hperm.countP_eq fun v =>
      [1, 2, 3, 4].getD (qcutBin (qEdges (rankFirst F)) v) 0 == (j + 1)
    have hc4 : ((oneToN n).countP fun v =>
        [1, 2, 3, 4].getD (qcutBin (qEdges (rankFirst F)) v) 0 == (j + 1)) =
        (List.range n).countP fun (i : ℕ) =>
          [1, 2, 3, 4].getD
            (qcutBin (qEdges (rankFirst F)) (1 + (i : ℚ))) 0 == (j + 1) := by
      unfold oneToN
      rw [List.countP_map]
      rfl
    have hc5 : ((List.range n).countP fun (i : ℕ) =>
        [1, 2, 3, 4].getD
          (qcutBin (qEdges (rankFirst F)) (1 + (i : ℚ))) 0 == (j + 1)) =
        (List.range n).countP fun i =>
          (([1, 2, 3].countP fun k => decide (k * (n - 1) < 4 * i)) == j) := by
      apply List.countP_congr
      intro i _
      rw [hbineq i, hlabels _ (hbinle i)]
      simp
    rw [hc1, hc2, hc3, hc4, hc5]
    exact quartile_sizes n hn2 j hj
  intro s hs
  rw [hrecslen]
  fin_cases hs
  · simpa using key 0 (by omega)
  · simpa using key 1 (by omega)
  · simpa using key 2 (by omega)
  · simpa using key 3 (by omega)

instance {ε α : Type} [DecidableEq ε] [DecidableEq α] :
    DecidableEq (Except ε α) := fun a b =>
  match a, b with
  | .ok x, .ok y =>
    if h : x = y then .isTrue (by rw [h]) else .isFalse (by simp [h])
  | .error x, .error y =>
    if h : x = y then .isTrue (by rw [h]) else .isFalse (by simp [h])
  | .ok _, .error _ => .isFalse (by simp)
  | .error _, .ok _ => .isFalse (by simp)

/-- A small concrete dataset: four customers with one order each on days
1 to 4 and payments 10 to 40; all scores distinct, the pipeline succeeds. -/
def exDF : List OrderRow :=
  [⟨1, 1, 86400, 10⟩, ⟨2, 2, 172800, 20⟩, ⟨3, 3, 259200, 30⟩,
   ⟨4, 4, 345600, 40⟩]

/-- Window covering the whole of `exDF` (day 0 to day 10). -/
def exW : DateWindow := ⟨0, 864000⟩

/-- An empty window (start after end), filtering out every row. -/
def exW0 : DateWindow := ⟨8640000, 0⟩

/-- The record list of a successful run, `[]` on error; projection used by
the concrete witnesses. -/
def okRecords (e : Except RFMError (List RFMRecord)) : List RFMRecord :=
  e.toOption.getD []

def exRecs : List RFMRecord := okRecords (segment_customers exDF exW)

def exRec1 : RFMRecord := exRecs.getD 0 ⟨0, 0, 0, 0, 0, 0, 0, ""⟩

/-- Four customers whose Recency values (1, 2, 2, 10 days) and Monetary
values (1, 2, 2, 10) are tied and skewed: the quartile cut succeeds but
the R and M score groups are unbalanced. -/
def c4df : List OrderRow :=
  [⟨1, 1, 864000, 1⟩, ⟨2, 2, 777600, 2⟩, ⟨3, 3, 777600, 2⟩,
   ⟨4, 4, 86400, 10⟩]

def c4w : DateWindow := ⟨0, 1728000⟩

/-- The spec scenario: three customers in January 2018, payments
[100, 50, 50], [200] and [10]; the Monetary values (200, 200, 10) leave
fewer than four distinct quartile groups. -/
def c2df : List OrderRow :=
  [⟨1, 1, 1515110400, 100⟩, ⟨1, 1, 1515110400, 50⟩, ⟨1, 1, 1515110400, 50⟩,
   ⟨2, 2, 1515542400, 200⟩, ⟨3, 3, 1515974400, 10⟩]

def c2w : DateWindow := ⟨1514764800, 1517356800⟩

/-- One order with rows in two different calendar months (January and
February 1970). -/
def c7df : List OrderRow :=
  [⟨1, 1, 0, 5⟩, ⟨1, 1, 2678400, 5⟩]

def c7w : DateWindow := ⟨0, 8640000⟩

/-- A row far outside `exW` and a row inside it. -/
def outRow : OrderRow := ⟨9, 9, 86400000, 7⟩

def inRow : OrderRow := ⟨8, 8, 432000, 3⟩

/-- C4 counterexample: on `c4df` the pipeline succeeds with 4 customers,
yet the R_score group for score 2 and the M_score group for score 3 are
both empty, while every group would need ⌊4/4⌋ = ⌈4/4⌉ = 1 customer. -/
theorem C4_score_balance_counterexample :
    (segment_customers c4df c4w).isOk = true ∧
    (okRecords (segment_customers c4df c4w)).length = 4 ∧
    ((okRecords (segment_customers c4df c4w)).countP
      fun rec => rec.R_score == 2) = 0 ∧
    ((okRecords (segment_customers c4df c4w)).countP
      fun rec => rec.M_score == 3) = 0 ∧
    ¬((0 : ℕ) = 4 / 4 ∨ (0 : ℕ) = (4 + 3) / 4) := by
  decide

/-- C7 counterexample: an order with rows in two months is counted once
per month by the monthly buckets but once overall, so the bucket counts
sum to 2 while the total distinct order count is 1. -/
theorem C7_bucket_coverage_counterexample :
    ((monthly c7df c7w).map (·.order_id_nunique)).sum = 2 ∧
    total_orders c7df c7w = 1 ∧ (2 : ℕ) ≠ 1 := by
  decide

theorem C1_classification_rule_witness :
    exRec1.Segment = segment exRec1.R_score exRec1.F_score ∧
    (segment 4 3 = "Loyal" ↔ ((4 : ℕ) = 4 ∧ 3 ≤ (3 : ℕ))) :=
  ⟨(C1_classification_rule exDF exW exRecs (by decide)).1 exRec1 (by decide),
   ((C1_classification_rule exDF exW exRecs (by decide)).2
     4 (by decide) 3 (by decide) 1 (by decide)).1⟩

theorem C2_quantile_failure_witness :
    segment_customers c2df c2w = .error .quantileComputation :=
  C2_quantile_failure c2df c2w (by decide) (Or.inr (Or.inr (by decide)))

theorem C3_insufficient_data_witness :
    segment_customers exDF exW0 = .error .insufficientData ∧
    segment_customers exDF exW ≠ .error .insufficientData :=
  ⟨(C3_insufficient_data exDF exW0).1 (by decide),
   (C3_insufficient_data exDF exW).2 (by decide)⟩

theorem C4_amended_f_balance_witness :
    (exRecs.countP fun rec => rec.F_score == 2) = exRecs.length / 4 ∨
    (exRecs.countP fun rec => rec.F_score == 2) = (exRecs.length + 3) / 4 :=
  C4_amended_f_balance exDF exW exRecs (by decide) 2 (by decide)

theorem C5_window_filter_witness :
    monthly (outRow :: exDF) exW = monthly exDF exW ∧
    inRow ∈ filtered_df (inRow :: exDF) exW :=
  ⟨((C5_window_filter exW outRow exDF).1 (by decide)).2.1,
   (C5_window_filter exW inRow exDF).2 (by decide)⟩

theorem C7_amended_bucket_coverage_witness :
    ((monthly exDF exW).map (·.order_id_nunique)).sum = total_orders exDF exW :=
  C7_amended_bucket_coverage exDF exW (by decide)

theorem C8_snapshot_recency_witness :
    snapshot_date exDF exW =
      listMax ((filtered_df exDF exW).map (·.order_purchase_timestamp))
        + 86400 ∧
    exRec1.Recency = (snapshot_date exDF exW -
      listMax (((filtered_df exDF exW).filter fun r =>
        decide (r.customer_unique_id = exRec1.customer_unique_id)).map
          (·.order_purchase_timestamp))).fdiv 86400 :=
  ⟨(C8_snapshot_recency exDF exW exRecs (by decide)).1,
   (C8_snapshot_recency exDF exW exRecs (by decide)).2 exRec1 (by decide)⟩

theorem C9_monetary_sum_witness :
    (exRecs.map (·.Monetary)).sum = total_revenue exDF exW :=
  C9_monetary_sum exDF exW exRecs (by decide)

theorem C10_recency_pos_witness : 1 ≤ exRec1.Recency :=
  C10_recency_pos exDF exW exRecs (by decide) exRec1 (by decide)

end Dashboard
